import Mathlib

/-!
Shallow embedding of the VidHub in-memory store (`src/server/storage.ts`)
and of the relevance-search helpers of `src/server/routes.ts`.

Conventions of the embedding:
* JS `Map` objects keyed by numbers (or by the composite string key
  `"${id}_${userId}"`, which is injective on pairs of naturals) are modelled
  as association lists in insertion order; `Map.get` is `mget`, `Map.set` on
  a fresh key appends, on a present key replaces in place, `Map.delete`
  removes the entry.
* `Math.max(0, n - 1)` on a non-negative JS number is exactly truncated
  subtraction on `Nat`.
* JS exceptions (`throw new Error('Video not found')`) are modelled with
  `Except String`; the thrown path is taken before any mutation, so the
  operation returns the untouched store alongside the error.
* JS `0/0 = NaN` (the unguarded denominator in `similarity`) is modelled by
  returning `none`; every `NaN`-propagating comparison (`NaN > 0.8` is
  `false`) is modelled by `simGT none _ = false`.
-/

/-- `Map.get` on an association list (first entry with the key wins). -/
def mget {α : Type} : List (ℕ × α) → ℕ → Option α
  | [], _ => none
  | e :: es, k => if e.1 = k then some e.2 else mget es k

/-- `Map.set`: replace the value when the key is present, append otherwise. -/
def mset {α : Type} (l : List (ℕ × α)) (k : ℕ) (v : α) : List (ℕ × α) :=
  if (mget l k).isSome then l.map (fun e => if e.1 = k then (k, v) else e)
  else l ++ [(k, v)]

/-- `Map.delete` for a presence set of pairs (removes the first occurrence). -/
def pdel {α : Type} [DecidableEq α] : List α → α → List α
  | [], _ => []
  | e :: es, p => if e = p then es else e :: pdel es p

/-- `Map.set(key, true)` for a presence set of pairs: append when absent. -/
def pins {α : Type} [DecidableEq α] (l : List α) (p : α) : List α :=
  if p ∈ l then l else l ++ [p]

/-- The fields of a stored video that the reaction engine touches. -/
structure Video where
  likes : ℕ
  dislikes : ℕ
deriving DecidableEq

/-- The object returned by `likeVideo`/`dislikeVideo`: the updated video
spread together with the caller's reaction flags. -/
structure RVideo where
  likes : ℕ
  dislikes : ℕ
  userLiked : Bool
  userDisliked : Bool
deriving DecidableEq

/-- A stored comment (the cascade in `permanentlyDeleteVideo` only inspects
`videoId`). -/
structure Cmt where
  videoId : ℕ
deriving DecidableEq

/-- The slice of `MemStorage` state the verified operations read and write. -/
structure Store where
  videos : List (ℕ × Video)
  userLikes : List (ℕ × ℕ)
  userDislikes : List (ℕ × ℕ)
  userSavedVideos : List (ℕ × ℕ)
  comments : List (ℕ × Cmt)
deriving DecidableEq

/-- The store as built by the `MemStorage` constructor (no videos, empty
reaction maps). -/
def initStore : Store := ⟨[], [], [], [], []⟩

/-- `MemStorage.likeVideo` (storage.ts:254-289). -/
def likeVideo (s : Store) (vid uid : ℕ) : Except String RVideo × Store :=
  match mget s.videos vid with
  | none => (Except.error "Video not found", s)
  | some video =>
    let p := (vid, uid)
    if p ∈ s.userLikes then
      let v2 : Video := { video with likes := video.likes - 1 }
      let likes2 := pdel s.userLikes p
      let s2 : Store := { s with videos := mset s.videos vid v2, userLikes := likes2 }
      (Except.ok { likes := v2.likes, dislikes := v2.dislikes,
                   userLiked := decide (p ∈ likes2),
                   userDisliked := decide (p ∈ s.userDislikes) }, s2)
    else
      if p ∈ s.userDislikes then
        let v2 : Video := { video with likes := video.likes + 1, dislikes := video.dislikes - 1 }
        let likes2 := pins s.userLikes p
        let dislikes2 := pdel s.userDislikes p
        let s2 : Store := { s with videos := mset s.videos vid v2,
                                   userLikes := likes2, userDislikes := dislikes2 }
        (Except.ok { likes := v2.likes, dislikes := v2.dislikes,
                     userLiked := decide (p ∈ likes2),
                     userDisliked := decide (p ∈ dislikes2) }, s2)
      else
        let v2 : Video := { video with likes := video.likes + 1 }
        let likes2 := pins s.userLikes p
        let s2 : Store := { s with videos := mset s.videos vid v2, userLikes := likes2 }
        (Except.ok { likes := v2.likes, dislikes := v2.dislikes,
                     userLiked := decide (p ∈ likes2),
                     userDisliked := decide (p ∈ s.userDislikes) }, s2)

/-- `MemStorage.dislikeVideo` (storage.ts:291-326). -/
def dislikeVideo (s : Store) (vid uid : ℕ) : Except String RVideo × Store :=
  match mget s.videos vid with
  | none => (Except.error "Video not found", s)
  | some video =>
    let p := (vid, uid)
    if p ∈ s.userDislikes then
      let v2 : Video := { video with dislikes := video.dislikes - 1 }
      let dislikes2 := pdel s.userDislikes p
      let s2 : Store := { s with videos := mset s.videos vid v2, userDislikes := dislikes2 }
      (Except.ok { likes := v2.likes, dislikes := v2.dislikes,
                   userLiked := decide (p ∈ s.userLikes),
                   userDisliked := decide (p ∈ dislikes2) }, s2)
    else
      if p ∈ s.userLikes then
        let v2 : Video := { video with dislikes := video.dislikes + 1, likes := video.likes - 1 }
        let dislikes2 := pins s.userDislikes p
        let likes2 := pdel s.userLikes p
        let s2 : Store := { s with videos := mset s.videos vid v2,
                                   userLikes := likes2, userDislikes := dislikes2 }
        (Except.ok { likes := v2.likes, dislikes := v2.dislikes,
                     userLiked := decide (p ∈ likes2),
                     userDisliked := decide (p ∈ dislikes2) }, s2)
      else
        let v2 : Video := { video with dislikes := video.dislikes + 1 }
        let dislikes2 := pins s.userDislikes p
        let s2 : Store := { s with videos := mset s.videos vid v2, userDislikes := dislikes2 }
        (Except.ok { likes := v2.likes, dislikes := v2.dislikes,
                     userLiked := decide (p ∈ s.userLikes),
                     userDisliked := decide (p ∈ dislikes2) }, s2)

/-- The operations whose interleavings generate the reachable reaction
states: video creation (fresh counters, per `createVideo`) plus the two
reaction toggles. -/
inductive SOp where
  | create (vid : ℕ)
  | like (vid uid : ℕ)
  | dislike (vid uid : ℕ)

/-- One store transition. -/
def stepOp (s : Store) : SOp → Store
  | .create vid => { s with videos := mset s.videos vid ⟨0, 0⟩ }
  | .like vid uid => (likeVideo s vid uid).2
  | .dislike vid uid => (dislikeVideo s vid uid).2

/-- Run a sequence of operations from the constructor state. -/
def runOps (ops : List SOp) : Store := ops.foldl stepOp initStore

/-- `MemStorage.permanentlyDeleteVideo` (storage.ts:618-631): drop the video
and every comment attached to it. -/
def permanentlyDeleteVideo (s : Store) (vid : ℕ) : Store :=
  match mget s.videos vid with
  | none => s
  | some _ =>
    { s with videos := s.videos.filter (fun e => decide (e.1 ≠ vid)),
             comments := s.comments.filter (fun e => decide (e.2.videoId ≠ vid)) }

/-- Insertion step of the descending-id sort used by `getVideoComments`. -/
def insertDescById (x : ℕ × Cmt) : List (ℕ × Cmt) → List (ℕ × Cmt)
  | [] => [x]
  | y :: ys => if y.1 ≤ x.1 then x :: y :: ys else y :: insertDescById x ys

/-- Sort comment entries by descending id (the `(a, b) => b.id - a.id`
comparator of the source). -/
def sortDescById (l : List (ℕ × Cmt)) : List (ℕ × Cmt) :=
  l.foldr insertDescById []

/-- `MemStorage.getVideoComments` (storage.ts:339-349). -/
def getVideoComments (s : Store) (vid : ℕ) : List (ℕ × Cmt) :=
  sortDescById (s.comments.filter (fun e => decide (e.2.videoId = vid)))

/-- A stored video augmented with the requesting user's flags, as returned
by `getVideo` when a (truthy) user id is supplied. -/
structure FlaggedVideo where
  likes : ℕ
  dislikes : ℕ
  userLiked : Bool
  userDisliked : Bool
  userSaved : Bool
deriving DecidableEq

/-- Result of `getVideo`: either the plain stored video or the augmented
copy. -/
inductive GetVideoRes where
  | plain (v : Video)
  | withFlags (v : FlaggedVideo)
deriving DecidableEq

/-- `MemStorage.getVideo` (storage.ts:177-196). `if (userId)` is JS
truthiness, so a supplied user id of `0` behaves like no user id. -/
def getVideo (s : Store) (vid : ℕ) (uid : Option ℕ) : Option GetVideoRes :=
  match mget s.videos vid with
  | none => none
  | some v =>
    match uid with
    | some u =>
      if u = 0 then some (.plain v)
      else some (.withFlags
        { likes := v.likes, dislikes := v.dislikes,
          userLiked := decide ((vid, u) ∈ s.userLikes),
          userDisliked := decide ((vid, u) ∈ s.userDislikes),
          userSaved := decide ((vid, u) ∈ s.userSavedVideos) })
    | none => some (.plain v)

/-- `MemStorage.addToWatchHistory` (storage.ts:88-96), acting on one user's
history list (stored most-recent-first). -/
def addToWatchHistory (history : List ℕ) (videoId : ℕ) : List ℕ :=
  (videoId :: history.filter (fun idv => decide (idv ≠ videoId))).take 100

/-- `MemStorage.getWatchHistory` (storage.ts:81-86): resolve each stored id,
drop ids that no longer resolve, then reverse. -/
def getWatchHistory (videos : List (ℕ × Video)) (history : List ℕ) : List Video :=
  ((history.map (fun vid => mget videos vid)).filterMap id).reverse

/-- The whitespace class of the JS regex `\s` restricted to ASCII (space,
tab, line feed, vertical tab, form feed, carriage return). -/
def jsWs (c : Char) : Bool :=
  c = ' ' || c = '\t' || c = '\n' || c = '\r' || c = Char.ofNat 11 || c = Char.ofNat 12

/-- JS `String.prototype.trim`. -/
def trimWs (l : List Char) : List Char :=
  ((l.dropWhile jsWs).reverse.dropWhile jsWs).reverse

mutual

/-- Worker for `split(/\s+/)`: accumulate the current token until a
whitespace character ends it; a maximal whitespace run is one separator;
boundary runs contribute empty tokens and the empty string splits to a
single empty token, exactly as in JS. -/
def splitWsAux : List Char → List Char → List (List Char)
  | [], acc => [acc.reverse]
  | c :: rest, acc =>
    if jsWs c then acc.reverse :: splitWsSkip rest
    else splitWsAux rest (c :: acc)

/-- Skip the remainder of a whitespace run, then resume tokenising; hitting
the end of input after a separator yields the trailing empty token. -/
def splitWsSkip : List Char → List (List Char)
  | [] => [[]]
  | c :: rest =>
    if jsWs c then splitWsSkip rest
    else splitWsAux rest [c]

end

/-- JS `str.split(/\s+/)`. -/
def splitWs (l : List Char) : List (List Char) := splitWsAux l []

/-- JS `String.prototype.includes` (substring containment; the empty needle
is contained in everything). -/
def containsSub (needle hay : List Char) : Bool :=
  (List.range (hay.length + 1)).any (fun i => needle.isPrefixOf (hay.drop i))

/-- Inner `j` loop of `similarity` (routes.ts:564-579): update row cell
`j+1` from the diagonal (`old`), `prev` and the current row cell `j`. -/
def levInner (c : Char) (prev : ℕ) : List Char → ℕ → List ℕ → ℕ → List ℕ × ℕ
  | [], _, dist, old => (dist, old)
  | d :: rest, j, dist, old =>
    let temp := dist.getD (j + 1) 0
    let value := if c = d then old else min old (min prev (dist.getD j 0)) + 1
    levInner c prev rest (j + 1) (dist.set (j + 1) value) temp

/-- Outer `i` loop of `similarity`; after each row the source resets
`old = prev`. -/
def levOuter (s2 : List Char) : List Char → ℕ → List ℕ → ℕ → List ℕ
  | [], _, dist, _ => dist
  | c :: rest, i, dist, old =>
    let prev := i + 1
    let r := levInner c prev s2 0 dist old
    levOuter s2 rest (i + 1) r.1 prev

/-- `similarity` (routes.ts:564-579). The final JS expression is
`1 - distances[s2.length] / Math.max(s1.length, s2.length)`; on two empty
inputs the denominator is `0` and `0/0` is `NaN`, modelled here as `none`. -/
def similarity (a b : List Char) : Option ℚ :=
  let s1 := if a.length < b.length then b else a
  let s2 := if a.length < b.length then a else b
  let dist := levOuter s2 s1 0 (List.range (s2.length + 1)) 0
  let denom := max s1.length s2.length
  if denom = 0 then none
  else some (1 - (dist.getD s2.length 0 : ℚ) / (denom : ℚ))

/-- A JS comparison `x > t` where `x` may be `NaN` (any comparison against
`NaN` is false). -/
def simGT (x : Option ℚ) (t : ℚ) : Bool :=
  match x with
  | none => false
  | some v => decide (t < v)

/-- `getNGrams` (routes.ts:581-587). -/
def getNGrams (t : List Char) (n : ℕ) : List (List Char) :=
  if t.length < n then []
  else (List.range (t.length - n + 1)).map (fun i => (t.drop i).take n)

/-- The per-character digit encoding of `getPhoneticCode`'s replace chain
(the classes are disjoint, so the sequential regex replaces act as one
character map). -/
def soundexDigit (c : Char) : Char :=
  if c ∈ ['a', 'e', 'i', 'o', 'u', 'y', 'h', 'w'] then '0'
  else if c ∈ ['b', 'f', 'p', 'v'] then '1'
  else if c ∈ ['c', 'g', 'j', 'k', 'q', 's', 'x', 'z'] then '2'
  else if c ∈ ['d', 't'] then '3'
  else if c = 'l' then '4'
  else if c ∈ ['m', 'n'] then '5'
  else if c = 'r' then '6'
  else c

/-- The regex `/(\d)\1+/g → '$1'`: collapse each run of one repeated digit
character to a single occurrence (drop a digit equal to its digit
predecessor). -/
def collapseDigitRuns : List Char → List Char
  | [] => []
  | [c] => [c]
  | c :: d :: rest =>
    if c.isDigit && d = c then collapseDigitRuns (c :: rest)
    else c :: collapseDigitRuns (d :: rest)
termination_by l => l.length
decreasing_by
  · simp only [List.length_cons]; omega
  · simp only [List.length_cons]; omega

/-- `getPhoneticCode` (routes.ts:589-603): uppercase first character of the
original text, then the digit-encoded, zero-stripped, run-collapsed body
truncated/padded to 3 characters. `"".charAt(0)` is the empty string. -/
def getPhoneticCode (t : List Char) : List Char :=
  let first := match t with | [] => [] | c :: _ => [c.toUpper]
  let ph := collapseDigitRuns
    (((t.map Char.toLower).map soundexDigit).filter (fun c => decide (c ≠ '0')))
  let sliced := ph.take 3
  first ++ (sliced ++ List.replicate (3 - sliced.length) '0')

/-- The candidate fields the search scoring reads. -/
structure SVideo where
  title : List Char
  descr : List Char
  views : ℕ
  likes : ℕ
deriving DecidableEq

/-- Per-title-word contribution for one query token (routes.ts:621-638):
edit-distance tiers, phonetic equality, common 3-grams, partial
containment. -/
def wordScore (q w : List Char) : ℚ :=
  (if simGT (similarity w q) (8/10) then 8
   else if simGT (similarity w q) (6/10) then 6 else 0)
  + (if getPhoneticCode w = getPhoneticCode q then 7 else 0)
  + 2 * (((getNGrams w 3).filter (fun g => decide (g ∈ getNGrams q 3))).length : ℚ)
  + (if containsSub q w || containsSub w q then 4 else 0)

/-- Per-description-word contribution for one query token
(routes.ts:641-645). -/
def descWordScore (q w : List Char) : ℚ :=
  (if simGT (similarity w q) (8/10) then 4 else 0)
  + (if getPhoneticCode w = getPhoneticCode q then 3 else 0)

/-- Score contribution of one query token (routes.ts:615-646). -/
def tokenScore (title descr : List Char) (titleWords descWords : List (List Char))
    (q : List Char) : ℚ :=
  (if containsSub q title then 10 else 0)
  + (if containsSub q descr then 5 else 0)
  + (titleWords.map (wordScore q)).sum
  + (descWords.map (descWordScore q)).sum

/-- Full `searchScore` of one candidate (routes.ts:605-652): token
contributions plus the popularity boosts. -/
def scoreVideo (v : SVideo) (qWords : List (List Char)) : ℚ :=
  let title := v.title.map Char.toLower
  let descr := v.descr.map Char.toLower
  let titleWords := splitWs title
  let descWords := splitWs descr
  (qWords.map (tokenScore title descr titleWords descWords)).sum
  + min ((v.views : ℚ) / 1000) 10 + min ((v.likes : ℚ) / 100) 5

/-- Query normalization of `GET /api/search` (routes.ts:558, 610):
lowercase, trim, split on whitespace runs. -/
def queryTokens (q : List Char) : List (List Char) :=
  splitWs (trimWs (q.map Char.toLower))

/-- A scored search candidate as seen by the sort comparator. -/
structure Scored where
  searchScore : ℚ
  views : ℕ
  likes : ℕ
deriving DecidableEq

/-- The popularity key `views + likes * 2` of the comparator. -/
def popularity (s : Scored) : ℕ := s.views + 2 * s.likes

/-- The sort comparator of `GET /api/search` (routes.ts:655-664); a
negative result ranks `a` before `b`. -/
def cmpScored (a b : Scored) : ℚ :=
  let scoreDiff := b.searchScore - a.searchScore
  if 1/10 < |scoreDiff| then scoreDiff
  else (popularity b : ℚ) - (popularity a : ℚ)

deriving instance DecidableEq for Except

/-! ### Association-list and presence-set lemmas -/

theorem mget_replace {α : Type} (l : List (ℕ × α)) (k : ℕ) (v : α)
    (h : (mget l k).isSome) :
    mget (l.map (fun e => if e.1 = k then (k, v) else e)) k = some v := by
  induction l with
  | nil => simp [mget] at h
  | cons e es ih =>
    by_cases he : e.1 = k
    · simp [mget, he]
    · simp only [List.map_cons, if_neg he, mget] at h ⊢
      exact ih h

theorem mget_append_absent {α : Type} (l : List (ℕ × α)) (k : ℕ) (v : α)
    (h : mget l k = none) : mget (l ++ [(k, v)]) k = some v := by
  induction l with
  | nil => simp [mget]
  | cons e es ih =>
    by_cases he : e.1 = k
    · simp [mget, he] at h
    · simp only [List.cons_append, mget, if_neg he] at h ⊢
      exact ih h

theorem mget_mset_self {α : Type} (l : List (ℕ × α)) (k : ℕ) (v : α) :
    mget (mset l k v) k = some v := by
  by_cases h : (mget l k).isSome
  · unfold mset
    rw [if_pos h]
    exact mget_replace l k v h
  · unfold mset
    rw [if_neg h]
    exact mget_append_absent l k v (Option.not_isSome_iff_eq_none.mp h)

theorem mget_filter_ne {α : Type} (l : List (ℕ × α)) (k : ℕ) :
    mget (l.filter (fun e => decide (e.1 ≠ k))) k = none := by
  induction l with
  | nil => rfl
  | cons e es ih =>
    by_cases he : e.1 = k
    · simpa [List.filter_cons, he] using ih
    · simpa [List.filter_cons, he, mget] using ih

theorem mem_pdel {α : Type} [DecidableEq α] {l : List α} {p q : α}
    (h : q ∈ pdel l p) : q ∈ l := by
  induction l with
  | nil => simp [pdel] at h
  | cons e es ih =>
    by_cases he : e = p
    · rw [pdel, if_pos he] at h
      exact List.mem_cons_of_mem _ h
    · rw [pdel, if_neg he] at h
      rcases List.mem_cons.mp h with rfl | h2
      · exact List.mem_cons_self _ _
      · exact List.mem_cons_of_mem _ (ih h2)

theorem nodup_pdel {α : Type} [DecidableEq α] (l : List α) (p : α)
    (h : l.Nodup) : (pdel l p).Nodup := by
  induction l with
  | nil => exact List.nodup_nil
  | cons e es ih =>
    rcases List.nodup_cons.mp h with ⟨he, hes⟩
    by_cases hep : e = p
    · rw [pdel, if_pos hep]
      exact hes
    · rw [pdel, if_neg hep]
      exact List.nodup_cons.mpr ⟨fun hc => he (mem_pdel hc), ih hes⟩

theorem not_mem_pdel_self {α : Type} [DecidableEq α] {l : List α} {p : α}
    (h : l.Nodup) : p ∉ pdel l p := by
  induction l with
  | nil => simp [pdel]
  | cons e es ih =>
    rcases List.nodup_cons.mp h with ⟨he, hes⟩
    by_cases hep : e = p
    · rw [pdel, if_pos hep]
      subst hep
      exact he
    · rw [pdel, if_neg hep]
      intro hc
      rcases List.mem_cons.mp hc with rfl | h2
      · exact hep rfl
      · exact ih hes h2

theorem mem_pins {α : Type} [DecidableEq α] (l : List α) (p q : α) :
    q ∈ pins l p ↔ q ∈ l ∨ q = p := by
  unfold pins
  by_cases h : p ∈ l
  · rw [if_pos h]
    constructor
    · exact Or.inl
    · rintro (hq | rfl)
      · exact hq
      · exact h
  · rw [if_neg h]
    simp

theorem nodup_pins {α : Type} [DecidableEq α] (l : List α) (p : α)
    (h : l.Nodup) : (pins l p).Nodup := by
  unfold pins
  by_cases hp : p ∈ l
  · rwa [if_pos hp]
  · rw [if_neg hp]
    refine List.Nodup.append h (List.nodup_singleton p) ?_
    intro a ha hb
    rw [List.mem_singleton] at hb
    exact hp (hb ▸ ha)

theorem pdel_append_self {α : Type} [DecidableEq α] {l : List α} {p : α}
    (h : p ∉ l) : pdel (l ++ [p]) p = l := by
  induction l with
  | nil => simp [pdel]
  | cons e es ih =>
    have hep : e ≠ p := fun hc => h (hc ▸ List.mem_cons_self _ _)
    rw [List.cons_append, pdel, if_neg hep,
      ih (fun hc => h (List.mem_cons_of_mem _ hc))]

/-! ### Reaction-engine lemmas -/

/-- The mutual-exclusion invariant of the two reaction presence sets,
together with the no-duplicate-key property every JS `Map` has. -/
def RInv (s : Store) : Prop :=
  (∀ p : ℕ × ℕ, p ∈ s.userLikes → p ∉ s.userDislikes)
  ∧ s.userLikes.Nodup ∧ s.userDislikes.Nodup

theorem rinv_like (s : Store) (vid uid : ℕ) (h : RInv s) :
    RInv (likeVideo s vid uid).2 := by
  obtain ⟨hx, hnl, hnd⟩ := h
  unfold likeVideo
  cases hv : mget s.videos vid with
  | none => exact ⟨hx, hnl, hnd⟩
  | some video =>
    dsimp only
    by_cases h1 : (vid, uid) ∈ s.userLikes
    · rw [if_pos h1]
      exact ⟨fun q hq => hx q (mem_pdel hq), nodup_pdel _ _ hnl, hnd⟩
    · rw [if_neg h1]
      by_cases h2 : (vid, uid) ∈ s.userDislikes
      · rw [if_pos h2]
        refine ⟨?_, nodup_pins _ _ hnl, nodup_pdel _ _ hnd⟩
        intro q hq
        rcases (mem_pins _ _ _).mp hq with hql | rfl
        · exact fun hc => hx q hql (mem_pdel hc)
        · exact not_mem_pdel_self hnd
      · rw [if_neg h2]
        refine ⟨?_, nodup_pins _ _ hnl, hnd⟩
        intro q hq
        rcases (mem_pins _ _ _).mp hq with hql | rfl
        · exact hx q hql
        · exact h2

theorem rinv_dislike (s : Store) (vid uid : ℕ) (h : RInv s) :
    RInv (dislikeVideo s vid uid).2 := by
  obtain ⟨hx, hnl, hnd⟩ := h
  unfold dislikeVideo
  cases hv : mget s.videos vid with
  | none => exact ⟨hx, hnl, hnd⟩
  | some video =>
    dsimp only
    by_cases h1 : (vid, uid) ∈ s.userDislikes
    · rw [if_pos h1]
      exact ⟨fun q hq hc => hx q hq (mem_pdel hc), hnl, nodup_pdel _ _ hnd⟩
    · rw [if_neg h1]
      by_cases h2 : (vid, uid) ∈ s.userLikes
      · rw [if_pos h2]
        refine ⟨?_, nodup_pdel _ _ hnl, nodup_pins _ _ hnd⟩
        intro q hq hc
        rcases (mem_pins _ _ _).mp hc with hqd | rfl
        · exact hx q (mem_pdel hq) hqd
        · exact not_mem_pdel_self hnl hq
      · rw [if_neg h2]
        refine ⟨?_, hnl, nodup_pins _ _ hnd⟩
        intro q hq hc
        rcases (mem_pins _ _ _).mp hc with hqd | rfl
        · exact hx q hq hqd
        · exact h2 hq

theorem rinv_step (s : Store) (op : SOp) (h : RInv s) : RInv (stepOp s op) := by
  cases op with
  | create vid => exact h
  | like vid uid => exact rinv_like s vid uid h
  | dislike vid uid => exact rinv_dislike s vid uid h

theorem rinv_foldl (ops : List SOp) :
    ∀ s : Store, RInv s → RInv (ops.foldl stepOp s) := by
  induction ops with
  | nil => exact fun s h => h
  | cons op rest ih => exact fun s h => ih (stepOp s op) (rinv_step s op h)

theorem rinv_runOps (ops : List SOp) : RInv (runOps ops) :=
  rinv_foldl ops initStore ⟨fun p hp => by simp [initStore] at hp, List.nodup_nil, List.nodup_nil⟩

/-- Claim C1: in every store state reachable by any sequence of
create/like/dislike operations, no (video, user) pair is simultaneously in
the like presence set and in the dislike presence set. -/
theorem reaction_mutual_exclusion (ops : List SOp) (p : ℕ × ℕ)
    (h : p ∈ (runOps ops).userLikes) : p ∉ (runOps ops).userDislikes :=
  (rinv_runOps ops).1 p h

/-- Witness for C1 at a concrete reachable state: after creating video 1
and liking it as user 1, the pair is in the like set and not in the
dislike set. -/
theorem reaction_mutual_exclusion_w :
    (1, 1) ∈ (runOps [SOp.create 1, SOp.like 1 1]).userLikes
    ∧ (1, 1) ∉ (runOps [SOp.create 1, SOp.like 1 1]).userDislikes :=
  ⟨by decide, reaction_mutual_exclusion [SOp.create 1, SOp.like 1 1] (1, 1) (by decide)⟩

/-- Counterexample to claim C2 as stated: from the reachable state where
user 1 already likes video 1 (baseline counters likes = 1, dislikes = 0),
running likeVideo then dislikeVideo leaves the video at likes = 0,
dislikes = 1 — the likes counter shows a net change of -1, not the claimed
net change of zero (which would give likes = 1, dislikes = 1). -/
theorem like_then_dislike_cex :
    mget (runOps [SOp.create 1, SOp.like 1 1]).videos 1 = some ⟨1, 0⟩
    ∧ mget (dislikeVideo (likeVideo (runOps [SOp.create 1, SOp.like 1 1]) 1 1).2 1 1).2.videos 1
        = some ⟨0, 1⟩
    ∧ mget (dislikeVideo (likeVideo (runOps [SOp.create 1, SOp.like 1 1]) 1 1).2 1 1).2.videos 1
        ≠ some ⟨1, 1⟩ := by decide

/-- Claim C2 amended: for an existing video and a user holding no prior
reaction on it, likeVideo followed by dislikeVideo ends with the dislike
edge present, the like edge absent, the likes counter at its baseline and
the dislikes counter incremented by exactly one. -/
theorem like_then_dislike_neutral (s : Store) (vid uid : ℕ) (video : Video)
    (hv : mget s.videos vid = some video)
    (hl : (vid, uid) ∉ s.userLikes)
    (hd : (vid, uid) ∉ s.userDislikes) :
    (vid, uid) ∈ (dislikeVideo (likeVideo s vid uid).2 vid uid).2.userDislikes
    ∧ (vid, uid) ∉ (dislikeVideo (likeVideo s vid uid).2 vid uid).2.userLikes
    ∧ mget (dislikeVideo (likeVideo s vid uid).2 vid uid).2.videos vid
        = some ⟨video.likes, video.dislikes + 1⟩ := by
  have e1 : (likeVideo s vid uid).2
      = { s with videos := mset s.videos vid { video with likes := video.likes + 1 },
                 userLikes := s.userLikes ++ [(vid, uid)] } := by
    unfold likeVideo
    rw [hv]
    dsimp only
    rw [if_neg hl, if_neg hd]
    dsimp only
    unfold pins
    rw [if_neg hl]
  rw [e1]
  unfold dislikeVideo
  rw [mget_mset_self]
  dsimp only
  rw [if_neg hd, if_pos (List.mem_append_right _ (List.mem_singleton_self _))]
  dsimp only
  rw [pdel_append_self hl]
  unfold pins
  rw [if_neg hd]
  refine ⟨List.mem_append_right _ (List.mem_singleton_self _), hl, ?_⟩
  rw [mget_mset_self]
  simp

/-- Witness for the amended C2 at a concrete input: video 1 with counters
(5, 2) and the neutral user 7. -/
theorem like_then_dislike_neutral_w :
    mget (⟨[(1, ⟨5, 2⟩)], [], [], [], []⟩ : Store).videos 1 = some ⟨5, 2⟩
    ∧ (1, 7) ∉ (⟨[(1, ⟨5, 2⟩)], [], [], [], []⟩ : Store).userLikes
    ∧ (1, 7) ∉ (⟨[(1, ⟨5, 2⟩)], [], [], [], []⟩ : Store).userDislikes
    ∧ ((1, 7) ∈ (dislikeVideo (likeVideo ⟨[(1, ⟨5, 2⟩)], [], [], [], []⟩ 1 7).2 1 7).2.userDislikes
      ∧ (1, 7) ∉ (dislikeVideo (likeVideo ⟨[(1, ⟨5, 2⟩)], [], [], [], []⟩ 1 7).2 1 7).2.userLikes
      ∧ mget (dislikeVideo (likeVideo ⟨[(1, ⟨5, 2⟩)], [], [], [], []⟩ 1 7).2 1 7).2.videos 1
          = some ⟨5, 3⟩) :=
  ⟨by decide, by decide, by decide,
    like_then_dislike_neutral ⟨[(1, ⟨5, 2⟩)], [], [], [], []⟩ 1 7 ⟨5, 2⟩
      (by decide) (by decide) (by decide)⟩

/-- Claim C3: likeVideo and dislikeVideo on a video id that does not
resolve return the NotFound error and the store completely unchanged. -/
theorem missing_video_reaction_error (s : Store) (vid uid : ℕ)
    (h : mget s.videos vid = none) :
    likeVideo s vid uid = (Except.error "Video not found", s)
    ∧ dislikeVideo s vid uid = (Except.error "Video not found", s) := by
  constructor
  · unfold likeVideo
    rw [h]
  · unfold dislikeVideo
    rw [h]

/-- Witness for C3: video 9 does not exist in a store holding only
video 1. -/
theorem missing_video_reaction_error_w :
    mget (⟨[(1, ⟨5, 2⟩)], [], [], [], []⟩ : Store).videos 9 = none
    ∧ (likeVideo ⟨[(1, ⟨5, 2⟩)], [], [], [], []⟩ 9 7
        = (Except.error "Video not found", ⟨[(1, ⟨5, 2⟩)], [], [], [], []⟩)
      ∧ dislikeVideo ⟨[(1, ⟨5, 2⟩)], [], [], [], []⟩ 9 7
        = (Except.error "Video not found", ⟨[(1, ⟨5, 2⟩)], [], [], [], []⟩)) :=
  ⟨by decide, missing_video_reaction_error ⟨[(1, ⟨5, 2⟩)], [], [], [], []⟩ 9 7 (by decide)⟩

/-- Counterexample to claim C6 as stated: from the reachable state where
user 1 already likes video 1, calling likeVideo twice ends with the like
edge PRESENT and the second call returning userLiked = true, not the
claimed absent edge and false flag. -/
theorem double_like_cex :
    (likeVideo (likeVideo (runOps [SOp.create 1, SOp.like 1 1]) 1 1).2 1 1).1
      = Except.ok ⟨1, 0, true, false⟩
    ∧ (1, 1) ∈ (likeVideo (likeVideo (runOps [SOp.create 1, SOp.like 1 1]) 1 1).2 1 1).2.userLikes := by
  decide

/-- Claim C6 amended: for an existing video and a user who does NOT
currently hold a like edge on it, two successive likeVideo calls restore
the likes counter to its baseline, leave the like edge absent, and the
second call's returned video carries userLiked = false. -/
theorem double_like_toggle (s : Store) (vid uid : ℕ) (video : Video)
    (hv : mget s.videos vid = some video)
    (hl : (vid, uid) ∉ s.userLikes) :
    (mget (likeVideo (likeVideo s vid uid).2 vid uid).2.videos vid).map Video.likes
        = some video.likes
    ∧ (vid, uid) ∉ (likeVideo (likeVideo s vid uid).2 vid uid).2.userLikes
    ∧ ∃ rv : RVideo, (likeVideo (likeVideo s vid uid).2 vid uid).1 = Except.ok rv
        ∧ rv.userLiked = false := by
  by_cases hd : (vid, uid) ∈ s.userDislikes
  · have e1 : (likeVideo s vid uid).2
        = { s with videos := mset s.videos vid
                     { video with likes := video.likes + 1, dislikes := video.dislikes - 1 },
                   userLikes := s.userLikes ++ [(vid, uid)],
                   userDislikes := pdel s.userDislikes (vid, uid) } := by
      unfold likeVideo
      rw [hv]
      dsimp only
      rw [if_neg hl, if_pos hd]
      dsimp only
      unfold pins
      rw [if_neg hl]
    rw [e1]
    unfold likeVideo
    rw [mget_mset_self]
    dsimp only
    rw [if_pos (List.mem_append_right _ (List.mem_singleton_self _))]
    dsimp only
    rw [pdel_append_self hl, mget_mset_self]
    refine ⟨by simp, hl, ⟨_, rfl, ?_⟩⟩
    simp [hl]
  · have e1 : (likeVideo s vid uid).2
        = { s with videos := mset s.videos vid { video with likes := video.likes + 1 },
                   userLikes := s.userLikes ++ [(vid, uid)] } := by
      unfold likeVideo
      rw [hv]
      dsimp only
      rw [if_neg hl, if_neg hd]
      dsimp only
      unfold pins
      rw [if_neg hl]
    rw [e1]
    unfold likeVideo
    rw [mget_mset_self]
    dsimp only
    rw [if_pos (List.mem_append_right _ (List.mem_singleton_self _))]
    dsimp only
    rw [pdel_append_self hl, mget_mset_self]
    refine ⟨by simp, hl, ⟨_, rfl, ?_⟩⟩
    simp [hl]

/-- Witness for the amended C6 at a concrete input: video 1 with counters
(3, 1), user 2 currently DISliking it (so the cross-clear path of the
first call is exercised). -/
theorem double_like_toggle_w :
    mget (⟨[(1, ⟨3, 1⟩)], [], [(1, 2)], [], []⟩ : Store).videos 1 = some ⟨3, 1⟩
    ∧ (1, 2) ∉ (⟨[(1, ⟨3, 1⟩)], [], [(1, 2)], [], []⟩ : Store).userLikes
    ∧ ((mget (likeVideo (likeVideo ⟨[(1, ⟨3, 1⟩)], [], [(1, 2)], [], []⟩ 1 2).2 1 2).2.videos 1).map Video.likes
          = some 3
      ∧ (1, 2) ∉ (likeVideo (likeVideo ⟨[(1, ⟨3, 1⟩)], [], [(1, 2)], [], []⟩ 1 2).2 1 2).2.userLikes
      ∧ ∃ rv : RVideo,
          (likeVideo (likeVideo ⟨[(1, ⟨3, 1⟩)], [], [(1, 2)], [], []⟩ 1 2).2 1 2).1 = Except.ok rv
          ∧ rv.userLiked = false) :=
  ⟨by decide, by decide,
    double_like_toggle ⟨[(1, ⟨3, 1⟩)], [], [(1, 2)], [], []⟩ 1 2 ⟨3, 1⟩
      (by decide) (by decide)⟩

/-! ### Watch-history lemmas -/

theorem addToWatchHistory_preserves (h : List ℕ) (v : ℕ) (hn : h.Nodup) :
    (addToWatchHistory h v).length ≤ 100 ∧ (addToWatchHistory h v).Nodup := by
  constructor
  · exact List.length_take_le _ _
  · refine List.Nodup.sublist (List.take_sublist _ _) ?_
    refine List.nodup_cons.mpr ⟨?_, hn.filter _⟩
    intro hc
    have := (List.mem_filter.mp hc).2
    simp at this

/-- Claim C4: (a) any operation sequence from the empty history keeps the
stored list at length at most 100 with no duplicate ids; (b) recording a
view puts that id at the front and leaves it with exactly one occurrence;
(c) at the cap with a fresh id, the evicted entry is exactly the last
(oldest) one. -/
theorem watch_history_bounded_dedup :
    (∀ ops : List ℕ, (ops.foldl addToWatchHistory []).length ≤ 100
      ∧ (ops.foldl addToWatchHistory []).Nodup)
    ∧ (∀ (h : List ℕ) (v : ℕ), (addToWatchHistory h v).head? = some v
      ∧ (addToWatchHistory h v).count v = 1)
    ∧ (∀ (h : List ℕ) (v : ℕ), v ∉ h → h.length = 100 →
      addToWatchHistory h v = v :: h.dropLast) := by
  refine ⟨?_, ?_, ?_⟩
  · intro ops
    suffices hs : ∀ st : List ℕ, st.length ≤ 100 → st.Nodup →
        (ops.foldl addToWatchHistory st).length ≤ 100
        ∧ (ops.foldl addToWatchHistory st).Nodup by
      exact hs [] (by simp) List.nodup_nil
    induction ops with
    | nil => exact fun st hl hn => ⟨hl, hn⟩
    | cons v rest ih =>
      intro st hl hn
      obtain ⟨hl2, hn2⟩ := addToWatchHistory_preserves st v hn
      exact ih _ hl2 hn2
  · intro h v
    constructor
    · unfold addToWatchHistory
      rw [(by norm_num : (100 : ℕ) = 99 + 1), List.take_succ_cons, List.head?_cons]
    · unfold addToWatchHistory
      rw [(by norm_num : (100 : ℕ) = 99 + 1), List.take_succ_cons, List.count_cons_self]
      have h0 : (h.filter (fun x => decide (x ≠ v))).count v = 0 := by
        refine List.count_eq_zero.mpr fun hc => ?_
        have := (List.mem_filter.mp hc).2
        simp at this
      have hle := ((List.take_sublist 99 (h.filter (fun x => decide (x ≠ v)))).count_le v)
      omega
  · intro h v hv hlen
    unfold addToWatchHistory
    rw [List.filter_eq_self.mpr (fun a ha => by
      simp only [ne_eq, decide_eq_true_eq]
      exact fun hav => hv (hav ▸ ha))]
    rw [(by norm_num : (100 : ℕ) = 99 + 1), List.take_succ_cons,
      List.dropLast_eq_take, hlen]

/-- Witness for C4 at concrete inputs: a full 100-entry history and the
fresh id 1000 evict the oldest entry 99; the bullet applied is the
hypothesis-bearing cap/eviction part, the others are closed. -/
theorem watch_history_bounded_dedup_w :
    (1000 : ℕ) ∉ List.range 100
    ∧ (List.range 100).length = 100
    ∧ addToWatchHistory (List.range 100) 1000 = 1000 :: (List.range 100).dropLast :=
  ⟨by decide, by decide,
    watch_history_bounded_dedup.2.2 (List.range 100) 1000 (by decide) (by decide)⟩

/-- Claim C5 evaluated (the code contradicts it): user watches video 1 and
then video 2, so the stored history is [2, 1] (most recent first); the
videos both exist, yet getWatchHistory returns the MOST RECENT view LAST
([video 1, video 2]), because the code reverses a list that is already
most-recent-first. The inline comment `// Most recent first` and the spec
demand the opposite order. -/
theorem watch_history_order_eval :
    addToWatchHistory (addToWatchHistory [] 1) 2 = [2, 1]
    ∧ getWatchHistory [(1, ⟨10, 0⟩), (2, ⟨20, 0⟩)] (addToWatchHistory (addToWatchHistory [] 1) 2)
        = [⟨10, 0⟩, ⟨20, 0⟩]
    ∧ getWatchHistory [(1, ⟨10, 0⟩), (2, ⟨20, 0⟩)] (addToWatchHistory (addToWatchHistory [] 1) 2)
        ≠ [⟨20, 0⟩, ⟨10, 0⟩] := by decide

/-! ### Permanent-delete lemmas -/

/-- Claim C8: permanently deleting an existing video removes every comment
attached to it (getVideoComments returns the empty list) and makes a
subsequent getVideo report the video as missing. -/
theorem permanent_delete_cascade (s : Store) (vid : ℕ)
    (h : (mget s.videos vid).isSome) :
    getVideoComments (permanentlyDeleteVideo s vid) vid = []
    ∧ getVideo (permanentlyDeleteVideo s vid) vid none = none := by
  obtain ⟨v, hv⟩ := Option.isSome_iff_exists.mp h
  unfold permanentlyDeleteVideo
  rw [hv]
  constructor
  · unfold getVideoComments
    have he : ((s.comments.filter (fun e => decide (e.2.videoId ≠ vid))).filter
        (fun e => decide (e.2.videoId = vid))) = [] := by
      rw [List.filter_filter]
      refine List.filter_eq_nil_iff.mpr fun e _ => ?_
      simp
    dsimp only
    rw [he]
    rfl
  · unfold getVideo
    rw [mget_filter_ne]

/-- Witness for C8 at the spec's scenario: a store holding video 1 with
three attached comments. -/
theorem permanent_delete_cascade_w :
    (mget (⟨[(1, ⟨0, 0⟩)], [], [], [], [(1, ⟨1⟩), (2, ⟨1⟩), (3, ⟨1⟩)]⟩ : Store).videos 1).isSome
    ∧ (getVideoComments (permanentlyDeleteVideo ⟨[(1, ⟨0, 0⟩)], [], [], [], [(1, ⟨1⟩), (2, ⟨1⟩), (3, ⟨1⟩)]⟩ 1) 1 = []
      ∧ getVideo (permanentlyDeleteVideo ⟨[(1, ⟨0, 0⟩)], [], [], [], [(1, ⟨1⟩), (2, ⟨1⟩), (3, ⟨1⟩)]⟩ 1) 1 none = none) :=
  ⟨by decide,
    permanent_delete_cascade ⟨[(1, ⟨0, 0⟩)], [], [], [], [(1, ⟨1⟩), (2, ⟨1⟩), (3, ⟨1⟩)]⟩ 1 (by decide)⟩

/-! ### Search-engine lemmas -/

/-- Claim C7: the search comparator ranks the higher score first whenever
the absolute score difference exceeds 0.1, and otherwise ranks the higher
popularity (views + 2*likes) first. A negative comparator value ranks `a`
before `b`. -/
theorem search_comparator_ranking (a b : Scored) :
    (1/10 < |a.searchScore - b.searchScore| →
      (cmpScored a b < 0 ↔ b.searchScore < a.searchScore))
    ∧ (|a.searchScore - b.searchScore| ≤ 1/10 →
      (cmpScored a b < 0 ↔ popularity b < popularity a)) := by
  unfold cmpScored
  dsimp only
  constructor
  · intro h
    rw [abs_sub_comm] at h
    rw [if_pos h]
    exact sub_neg
  · intro h
    rw [abs_sub_comm] at h
    rw [if_neg (not_lt.mpr h), sub_neg]
    exact Nat.cast_lt

/-- Witness for C7: scores 1 and 0 differ by more than 0.1, so the
higher-score candidate is ranked first regardless of popularity. -/
theorem search_comparator_ranking_w :
    cmpScored ⟨1, 0, 0⟩ ⟨0, 99, 0⟩ < 0 :=
  ((search_comparator_ranking ⟨1, 0, 0⟩ ⟨0, 99, 0⟩).1
    (by show (1:ℚ)/10 < |(1:ℚ) - 0|; norm_num)).mpr (by show (0:ℚ) < 1; norm_num)

/-- Claim C9 evaluated (the code contradicts it): on two empty strings the
source computes `1 - distances[0] / Math.max(0, 0) = 1 - 0/0 = NaN` — the
zero denominator is NOT guarded and the result is not 1. The embedding
models the NaN result as `none`. -/
theorem similarity_empty_nan : similarity [] [] = none := rfl

theorem jsWs_toLower {c : Char} (h : jsWs c = true) : jsWs c.toLower = true := by
  simp only [jsWs, Bool.or_eq_true, decide_eq_true_eq] at h ⊢
  rcases h with ((((h | h) | h) | h) | h) | h <;> subst h <;> decide

theorem trimWs_all_ws {q : List Char} (h : ∀ c ∈ q, jsWs c = true) :
    trimWs q = [] := by
  unfold trimWs
  rw [List.dropWhile_eq_nil_iff.mpr h]
  rfl

theorem queryTokens_ws {q : List Char} (h : ∀ c ∈ q, jsWs c = true) :
    queryTokens q = [[]] := by
  unfold queryTokens
  rw [trimWs_all_ws ?_]
  · rfl
  · intro c hc
    obtain ⟨d, hd, rfl⟩ := List.mem_map.mp hc
    exact jsWs_toLower (h d hd)

theorem wordScore_nonneg (q w : List Char) : 0 ≤ wordScore q w := by
  unfold wordScore
  have h1 : (0:ℚ) ≤ (if simGT (similarity w q) (8/10) then 8
      else if simGT (similarity w q) (6/10) then 6 else 0) := by
    split_ifs <;> norm_num
  have h2 : (0:ℚ) ≤ (if getPhoneticCode w = getPhoneticCode q then 7 else 0) := by
    split_ifs <;> norm_num
  have h3 : (0:ℚ) ≤ 2 * (((getNGrams w 3).filter
      (fun g => decide (g ∈ getNGrams q 3))).length : ℚ) := by positivity
  have h4 : (0:ℚ) ≤ (if containsSub q w || containsSub w q then 4 else 0) := by
    split_ifs <;> norm_num
  linarith

theorem descWordScore_nonneg (q w : List Char) : 0 ≤ descWordScore q w := by
  unfold descWordScore
  have h1 : (0:ℚ) ≤ (if simGT (similarity w q) (8/10) then 4 else 0) := by
    split_ifs <;> norm_num
  have h2 : (0:ℚ) ≤ (if getPhoneticCode w = getPhoneticCode q then 3 else 0) := by
    split_ifs <;> norm_num
  linarith

theorem containsSub_nil_left (hay : List Char) : containsSub [] hay = true := by
  unfold containsSub
  refine List.any_eq_true.mpr ⟨0, List.mem_range.mpr (Nat.succ_pos _), ?_⟩
  rw [List.drop_zero]
  cases hay <;> rfl

theorem tokenScore_nil_ge (title descr : List Char)
    (tW dW : List (List Char)) : 10 ≤ tokenScore title descr tW dW [] := by
  unfold tokenScore
  rw [containsSub_nil_left, containsSub_nil_left]
  have h3 : (0:ℚ) ≤ (tW.map (wordScore [])).sum := by
    refine List.sum_nonneg fun x hx => ?_
    obtain ⟨w, _, rfl⟩ := List.mem_map.mp hx
    exact wordScore_nonneg [] w
  have h4 : (0:ℚ) ≤ (dW.map (descWordScore [])).sum := by
    refine List.sum_nonneg fun x hx => ?_
    obtain ⟨w, _, rfl⟩ := List.mem_map.mp hx
    exact descWordScore_nonneg [] w
  simp only [if_true]
  linarith

theorem scoreVideo_empty_token_pos (v : SVideo) : 0 < scoreVideo v [[]] := by
  unfold scoreVideo
  dsimp only
  rw [List.map_cons, List.map_nil, List.sum_cons, List.sum_nil]
  have h1 := tokenScore_nil_ge (v.title.map Char.toLower) (v.descr.map Char.toLower)
    (splitWs (v.title.map Char.toLower)) (splitWs (v.descr.map Char.toLower))
  have h2 : (0:ℚ) ≤ min ((v.views : ℚ) / 1000) 10 := le_min (by positivity) (by norm_num)
  have h3 : (0:ℚ) ≤ min ((v.likes : ℚ) / 100) 5 := le_min (by positivity) (by norm_num)
  linarith

/-- Claim C10: a non-empty, all-whitespace query normalizes to the single
empty token; the empty token is a substring of every title, so every
candidate's score is strictly positive, and the score>0 filter therefore
keeps every fetched candidate. -/
theorem whitespace_query_matches_all (q : List Char) (hne : q ≠ [])
    (hws : ∀ c ∈ q, jsWs c = true) :
    queryTokens q = [[]]
    ∧ (∀ v : SVideo, 0 < scoreVideo v (queryTokens q))
    ∧ (∀ vids : List SVideo,
        vids.filter (fun v => decide (0 < scoreVideo v (queryTokens q))) = vids) := by
  have hq := queryTokens_ws hws
  refine ⟨hq, ?_, ?_⟩
  · intro v
    rw [hq]
    exact scoreVideo_empty_token_pos v
  · intro vids
    simp only [hq]
    exact List.filter_eq_self.mpr fun v _ =>
      decide_eq_true (scoreVideo_empty_token_pos v)

/-- Witness for C10 at the concrete query `" "` and a one-candidate
corpus. -/
theorem whitespace_query_matches_all_w :
    ([' '] : List Char) ≠ []
    ∧ queryTokens [' '] = [[]]
    ∧ 0 < scoreVideo ⟨['a'], [], 5, 7⟩ (queryTokens [' '])
    ∧ [(⟨['a'], [], 5, 7⟩ : SVideo)].filter
        (fun v => decide (0 < scoreVideo v (queryTokens [' ']))) = [⟨['a'], [], 5, 7⟩] := by
  have h := whitespace_query_matches_all [' '] (by decide) (by decide)
  exact ⟨by decide, h.1, h.2.1 _, h.2.2 _⟩
